import Mathlib

/-!
Shallow embedding of the `QueryEngine` class of `src/div-table.js`
(divtable-widget repository): the record filtering engine with its
structured-query evaluator (`filterObjects`, `searchObjects`,
`evaluateExpression`, `processGroup`, `parseCondition`, `applyCondition`).

Modelling conventions:
* JS field values are modelled by `Scalar` (string, rational number,
  boolean, null, undefined) and `JVal` (scalar or flat array of scalars),
  matching the record model the engine operates on.  JS numbers are
  modelled as rationals; `NaN` is represented by `Option.none` at the
  points where it can arise (string-to-number coercion), and non-finite
  values, hexadecimal numeric literals and non-ASCII case mapping are
  outside the model (no claim touches them).
* Records are association lists in insertion order, mirroring JS object
  key order as observed by `Object.values` and `field in obj`.
* Fallible evaluation (JS `throw`) is an `Except String` result.
* The regex operations of the source (`match`, `split`, `replace`,
  `test`) are implemented as direct character scans that reproduce the
  leftmost-match semantics of the concrete patterns used by the source;
  every character class involved is disjoint from its neighbour in the
  pattern, so greedy matching needs no backtracking.
-/

/-- JS whitespace as matched by `\s` and `trim()` (ASCII part). -/
def isSpaceChar (c : Char) : Bool :=
  c = ' ' || c = '\t' || c = '\n' || c = '\r' || c = '\x0b' || c = '\x0c'

/-- JS `\w` word character class: `[A-Za-z0-9_]`. -/
def isWordChar (c : Char) : Bool :=
  ('a' ≤ c && c ≤ 'z') || ('A' ≤ c && c ≤ 'Z') || ('0' ≤ c && c ≤ '9') || c = '_'

/-- ASCII lower-casing, modelling JS `toLowerCase` on the inputs the engine sees. -/
def charLower (c : Char) : Char :=
  if 'A' ≤ c ∧ c ≤ 'Z' then Char.ofNat (c.toNat + 32) else c

def lowerChars (cs : List Char) : List Char := cs.map charLower

def lowerStr (s : String) : String := String.mk (lowerChars s.data)

/-- JS `String.prototype.trim()`. -/
def jsTrimList (cs : List Char) : List Char :=
  ((cs.dropWhile isSpaceChar).reverse.dropWhile isSpaceChar).reverse

def jsTrim (s : String) : String := String.mk (jsTrimList s.data)

/-- A scalar JS value as stored in record fields and condition values. -/
inductive Scalar where
  | s (v : String)
  | n (v : Rat)
  | b (v : Bool)
  | null
  | undef
deriving DecidableEq, Repr

/-- A JS record-field value: a scalar or a flat array of scalars. -/
inductive JVal where
  | scalar (v : Scalar)
  | arr (xs : List Scalar)
deriving DecidableEq, Repr

/-- A record: field name to value, in insertion order. -/
def Record := List (String × JVal)

/-- Association-list lookup, mirroring JS property access on plain objects. -/
def lookupField : Record → String → Option JVal
  | [], _ => none
  | (k, v) :: rest, f => if k = f then some v else lookupField rest f

/-- `field in obj ? obj[field] : null` (applyCondition's accessor). -/
def objGet (obj : Record) (f : String) : JVal :=
  (lookupField obj f).getD (.scalar .null)

/-- `obj[primaryKeyField]`: a missing key reads as `undefined`. -/
def pkValue (pk : String) (obj : Record) : JVal :=
  (lookupField obj pk).getD (.scalar .undef)

/-- `isNullish` of the source: `val === null || val === undefined || val === ''`. -/
def scalarNullish : Scalar → Bool
  | .null => true
  | .undef => true
  | .s v => v = ""
  | _ => false

def jvalNullish : JVal → Bool
  | .scalar v => scalarNullish v
  | .arr _ => false

/-! ### Numeric coercion (JS `Number(...)`, `parseFloat`) -/

def digitsVal (ds : List Char) : Nat :=
  ds.foldl (fun a c => a * 10 + (c.toNat - 48)) 0

/-- Structural `span`: `(takeWhile p, rest)`. -/
def spanP (p : Char → Bool) : List Char → List Char × List Char
  | [] => ([], [])
  | c :: cs => if p c then
      let r := spanP p cs
      (c :: r.1, r.2)
    else ([], c :: cs)

/-- Decimal-literal body for `Number(...)`: digits, optional fraction and
exponent, requiring the whole input to be consumed.  `none` is NaN. -/
def parseDecCore (cs : List Char) : Option Rat :=
  let ir := spanP Char.isDigit cs
  let fr : List Char × List Char :=
    match ir.2 with
    | '.' :: r => spanP Char.isDigit r
    | _ => ([], ir.2)
  if ir.1 = [] ∧ fr.1 = [] then none
  else
    let den : Nat := 10 ^ fr.1.length
    let base : Rat := mkRat (digitsVal ir.1 * den + digitsVal fr.1) den
    match fr.2 with
    | [] => some base
    | e :: r3 =>
      if e = 'e' ∨ e = 'E' then
        let sr : Bool × List Char :=
          match r3 with
          | '+' :: r => (false, r)
          | '-' :: r => (true, r)
          | _ => (false, r3)
        let er := spanP Char.isDigit sr.2
        if er.1 = [] ∨ er.2 ≠ [] then none
        else
          let mag : Rat :=
            if sr.1 then mkRat 1 (10 ^ digitsVal er.1)
            else ((10 ^ digitsVal er.1 : Nat) : Rat)
          some (base * mag)
      else none

/-- JS `Number(string)` (`ToNumber` on strings): trim, empty is 0, else a
signed decimal literal; `none` is NaN. -/
def strToNum (s : String) : Option Rat :=
  match jsTrimList s.data with
  | [] => some 0
  | '+' :: cs => parseDecCore cs
  | '-' :: cs => (parseDecCore cs).map (fun q => -q)
  | cs => parseDecCore cs

/-- `ToNumber` on scalars; `none` is NaN. -/
def toNum : Scalar → Option Rat
  | .n q => some q
  | .b bv => some (if bv then 1 else 0)
  | .s v => strToNum v
  | .null => some 0
  | .undef => none

/-- JS `parseFloat` on a string: leading whitespace and sign, then the
longest decimal prefix; `none` is NaN. -/
def parseFloatList (cs0 : List Char) : Option Rat :=
  let cs1 := cs0.dropWhile isSpaceChar
  let sgn : Bool × List Char :=
    match cs1 with
    | '+' :: r => (false, r)
    | '-' :: r => (true, r)
    | _ => (false, cs1)
  let ir := spanP Char.isDigit sgn.2
  let fr : List Char × List Char :=
    match ir.2 with
    | '.' :: r => spanP Char.isDigit r
    | _ => ([], ir.2)
  if ir.1 = [] ∧ fr.1 = [] then none
  else
    let den : Nat := 10 ^ fr.1.length
    let base : Rat := mkRat (digitsVal ir.1 * den + digitsVal fr.1) den
    let withExp : Rat :=
      match fr.2 with
      | e :: r3 =>
        if e = 'e' ∨ e = 'E' then
          let sr : Bool × List Char :=
            match r3 with
            | '+' :: r => (true, r)
            | '-' :: r => (false, r)
            | _ => (true, r3)
          let er := spanP Char.isDigit sr.2
          if er.1 = [] then base
          else if sr.1 then base * ((10 ^ digitsVal er.1 : Nat) : Rat)
          else base * mkRat 1 (10 ^ digitsVal er.1)
        else base
      | [] => base
    some (if sgn.1 then -withExp else withExp)

/-- JS `parseFloat` applied to a scalar (non-strings stringify to text with
no numeric prefix, except numbers which round-trip). -/
def parseFloatScalar : Scalar → Option Rat
  | .n q => some q
  | .s v => parseFloatList v.data
  | _ => none

/-! ### Loose equality (JS `==`) between scalars -/

def looseEq : Scalar → Scalar → Bool
  | .null, .null => true
  | .null, .undef => true
  | .undef, .null => true
  | .undef, .undef => true
  | .null, _ => false
  | .undef, _ => false
  | _, .null => false
  | _, .undef => false
  | .s a, .s bv => a = bv
  | .n a, .n bv => a = bv
  | .b a, .b bv => a = bv
  | .n a, .s bv => match strToNum bv with
    | some q => a = q
    | none => false
  | .s a, .n bv => match strToNum a with
    | some q => q = bv
    | none => false
  | .b a, .n bv => (if a then (1 : Rat) else 0) = bv
  | .n a, .b bv => a = (if bv then (1 : Rat) else 0)
  | .b a, .s bv => match strToNum bv with
    | some q => (if a then (1 : Rat) else 0) = q
    | none => false
  | .s a, .b bv => match strToNum a with
    | some q => q = (if bv then (1 : Rat) else 0)
    | none => false

/-! ### Conditions -/

/-- The value slot of a parsed condition: a scalar (comparison forms) or a
value list (`IN` form). -/
inductive CondValue where
  | scalar (v : Scalar)
  | list (vs : List Scalar)
deriving DecidableEq, Repr

/-- `{ field, operator, value }` as produced by `parseCondition`. -/
structure Cond where
  field : String
  operator : String
  value : CondValue
deriving DecidableEq, Repr

/-- `value === null` (strict) on the condition value. -/
def condIsNull : CondValue → Bool
  | .scalar .null => true
  | _ => false

def scalarStr : Scalar → String
  | .s v => v
  | .b bv => if bv then "true" else "false"
  | .n q => if q.den = 1 then toString q.num
            else toString q.num ++ "/" ++ toString q.den
  | .null => "null"
  | .undef => "undefined"

/-- Element rendering inside `Array.prototype.join`: null/undefined render
as the empty string. -/
def joinElemStr : Scalar → String
  | .null => ""
  | .undef => ""
  | v => scalarStr v

def joinWith (sep : String) : List String → String
  | [] => ""
  | [x] => x
  | x :: y :: rest => x ++ sep ++ joinWith sep (y :: rest)

/-- `String(array)` = `join(",")`. -/
def arrToString (xs : List Scalar) : String := joinWith "," (xs.map joinElemStr)

/-- `objValue == value` where `value` may (unreachably, see
`parseCondition_shape`) be an `IN` list: an array coerces to its
comma-joined string. -/
def looseEqCV (a : Scalar) : CondValue → Bool
  | .scalar v => looseEq a v
  | .list vs => looseEq a (.s (arrToString vs))

/-- `objValue.includes(value)` for an array-valued field:
same-value equality; a list value (an array) is never an element. -/
def arrIncludes (xs : List Scalar) : CondValue → Bool
  | .scalar v => xs.contains v
  | .list _ => false

/-- `value.includes(objValue)` for an `IN` list against the raw field
value: an array-valued field is compared by reference, never a member. -/
def inIncludes (vs : List Scalar) : JVal → Bool
  | .scalar v => vs.contains v
  | .arr _ => false

/-- `parseFloat(value)` on the condition value (the `IN` list shape is
unreachable here, see `parseCondition_shape`). -/
def parseFloatCV : CondValue → Option Rat
  | .scalar v => parseFloatScalar v
  | .list _ => none

/-- The `'='` case of `applyCondition`. -/
def evalEq (ov : JVal) (v : CondValue) : Bool :=
  if condIsNull v then jvalNullish ov
  else if jvalNullish ov then false
  else match ov with
    | .arr xs => arrIncludes xs v
    | .scalar a => looseEqCV a v

/-- The `'!='` case of `applyCondition` (independently computed negation). -/
def evalNeq (ov : JVal) (v : CondValue) : Bool :=
  if condIsNull v then !jvalNullish ov
  else if jvalNullish ov then true
  else match ov with
    | .arr xs => !arrIncludes xs v
    | .scalar a => !looseEqCV a v

/-- The `'>'` case: `objValue > parseFloat(value)`, false for nullish or
array values; a NaN on either side compares false. -/
def evalGt (ov : JVal) (v : CondValue) : Bool :=
  if jvalNullish ov then false
  else match ov with
    | .arr _ => false
    | .scalar a =>
      match toNum a, parseFloatCV v with
      | some x, some y => y < x
      | _, _ => false

/-- The `'<'` case. -/
def evalLt (ov : JVal) (v : CondValue) : Bool :=
  if jvalNullish ov then false
  else match ov with
    | .arr _ => false
    | .scalar a =>
      match toNum a, parseFloatCV v with
      | some x, some y => x < y
      | _, _ => false

/-- The `'IN'` case.  The value-list-contains-null check runs first; the
array-valued-field check is only reached for lists without null.  A scalar
condition value is unreachable here (see `parseCondition_shape`). -/
def evalIN (ov : JVal) (v : CondValue) : Bool :=
  match v with
  | .list vs =>
    if vs.contains Scalar.null then jvalNullish ov || inIncludes vs ov
    else if jvalNullish ov then false
    else match ov with
      | .arr xs => xs.any (fun item => vs.contains item)
      | .scalar a => vs.contains a
  | .scalar _ => false

/-- `applyCondition(obj, { field, operator, value })` of the source:
operator dispatch with `objValue = field in obj ? obj[field] : null`;
an unknown operator yields false. -/
def applyCondition (obj : Record) (c : Cond) : Bool :=
  let objValue := objGet obj c.field
  match c.operator with
  | "=" => evalEq objValue c.value
  | "!=" => evalNeq objValue c.value
  | ">" => evalGt objValue c.value
  | "<" => evalLt objValue c.value
  | "IN" => evalIN objValue c.value
  | _ => false

/-! ### parseCondition -/

/-- Case-sensitive literal match of `kw` at the head; returns the rest. -/
def stripLit : List Char → List Char → Option (List Char)
  | [], cs => some cs
  | _ :: _, [] => none
  | k :: ks, c :: cs => if k = c then stripLit ks cs else none

/-- One attempt of `/(\w+)\s+IN\s+\[([^\]]+)\]/` at the current position:
greedy runs of disjoint classes, then the literal pieces. -/
def matchINAt (cs : List Char) : Option (String × String) :=
  let wr := spanP isWordChar cs
  if wr.1 = [] then none
  else
    let s1 := spanP isSpaceChar wr.2
    if s1.1 = [] then none
    else match stripLit ['I', 'N'] s1.2 with
      | none => none
      | some r3 =>
        let s2 := spanP isSpaceChar r3
        if s2.1 = [] then none
        else match s2.2 with
          | '[' :: r5 =>
            let ir := spanP (fun c => !(c = ']')) r5
            if ir.1 = [] then none
            else match ir.2 with
              | ']' :: _ => some (String.mk wr.1, String.mk ir.1)
              | _ => none
          | _ => none

/-- Leftmost match of the `IN` regex: try every start position. -/
def findINMatch : List Char → Option (String × String)
  | [] => none
  | c :: cs =>
    match matchINAt (c :: cs) with
    | some r => some r
    | none => findINMatch cs

/-- The operator alternation `(=|!=|>|<)` (first chars are disjoint). -/
def matchOpAt : List Char → Option (String × List Char)
  | '=' :: r => some ("=", r)
  | '!' :: '=' :: r => some ("!=", r)
  | '>' :: r => some (">", r)
  | '<' :: r => some ("<", r)
  | _ => none

/-- One attempt of `/(\w+)\s*(=|!=|>|<)\s*(.+)/i` at the current position.
The trailing `\s*(.+)` is greedy whitespace that must leave at least one
character for the capture (expressions reaching this parser have been
whitespace-normalized, so the line-terminator exclusion of `.` is moot). -/
def matchCmpAt (cs : List Char) : Option (String × String × String) :=
  let wr := spanP isWordChar cs
  if wr.1 = [] then none
  else
    let sp := spanP isSpaceChar wr.2
    match matchOpAt sp.2 with
    | none => none
    | some (op, r3) =>
      if r3 = [] then none
      else
        let t := r3.dropWhile isSpaceChar
        let vcs := if t = [] then r3.drop (r3.length - 1) else t
        some (String.mk wr.1, op, String.mk vcs)

/-- Leftmost match of the comparison regex. -/
def findCmpMatch : List Char → Option (String × String × String)
  | [] => none
  | c :: cs =>
    match matchCmpAt (c :: cs) with
    | some r => some r
    | none => findCmpMatch cs

/-- `String.prototype.split(',')`: flat split keeping empty pieces. -/
def splitOnComma : List Char → List Char → List String
  | acc, [] => [String.mk acc.reverse]
  | acc, c :: cs =>
    if c = ',' then String.mk acc.reverse :: splitOnComma [] cs
    else splitOnComma (c :: acc) cs

/-- One `IN`-list element: `v.trim().replace(/"/g, '')`, with the literal
`NULL` mapped to null and everything else kept as a string. -/
def inListElem (v : String) : Scalar :=
  let t := String.mk ((jsTrimList v.data).filter (fun c => !(c = '"')))
  if t = "NULL" then .null else .s t

/-- Scalar coercion of the comparison-form value text: quoted string,
`NULL`, booleans, then number (`!isNaN(v) && v !== ''`), else the bare
string. -/
def coerceValue (value : String) : Scalar :=
  let pv := jsTrimList value.data
  if pv.head? = some '"' ∧ pv.getLast? = some '"' then
    .s (String.mk pv.tail.dropLast)
  else if pv = "NULL".data then .null
  else if lowerChars pv = "true".data then .b true
  else if lowerChars pv = "false".data then .b false
  else match strToNum (String.mk pv) with
    | some q => if pv = [] then .s (String.mk pv) else .n q
    | none => .s (String.mk pv)

/-- `parseCondition(condition)`: the `IN` form, else the comparison form,
else a parse failure (`none`, standing for the thrown
`Invalid condition`). -/
def parseCondition (condition : String) : Option Cond :=
  match findINMatch condition.data with
  | some (field, values) =>
    some ⟨field, "IN", .list ((splitOnComma [] values.data).map inListElem)⟩
  | none =>
    match findCmpMatch condition.data with
    | some (field, op, value) => some ⟨field, op, .scalar (coerceValue value)⟩
    | none => none

/-! ### processGroup: OR/AND splitting and conjunct evaluation -/

/-- One attempt of the separator regex `\s+KW\s+` (case-sensitive, as in
`split(/\s+OR\s+/)` and `split(/\s+AND\s+/)`): returns the rest after the
separator. -/
def matchSepAt (kw : List Char) (cs : List Char) : Option (List Char) :=
  let s1 := spanP isSpaceChar cs
  if s1.1 = [] then none
  else match stripLit kw s1.2 with
    | none => none
    | some r2 =>
      let s2 := spanP isSpaceChar r2
      if s2.1 = [] then none else some s2.2

/-- Regex split on `\s+KW\s+`: leftmost, non-overlapping separator matches.
Fuel is the character count; each separator consumes at least one
character, so initial fuel `cs.length` never runs out. -/
def splitOnSepF (kw : List Char) : Nat → List Char → List Char → List String
  | _, acc, [] => [String.mk acc.reverse]
  | 0, acc, cs => [String.mk (acc.reverse ++ cs)]
  | fuel + 1, acc, c :: cs =>
    match matchSepAt kw (c :: cs) with
    | some rest => String.mk acc.reverse :: splitOnSepF kw fuel [] rest
    | none => splitOnSepF kw fuel (c :: acc) cs

/-- `group.split(/\s+OR\s+/)`. -/
def splitOR (g : String) : List String := splitOnSepF ['O', 'R'] g.length [] g.data

/-- `conditionGroup.split(/\s+AND\s+/)`. -/
def splitAND (g : String) : List String := splitOnSepF ['A', 'N', 'D'] g.length [] g.data

/-- One AND-conjunct: the lower-cased trimmed literal `true`/`false`, or a
parsed and applied condition; an unparseable conjunct throws
`Invalid condition` naming the original text. -/
def evalConjunct (obj : Record) (condition : String) : Except String Bool :=
  let cond := lowerStr (jsTrim condition)
  if cond = "false" then .ok false
  else if cond = "true" then .ok true
  else match parseCondition condition with
    | some parsed => .ok (applyCondition obj parsed)
    | none => .error ("Invalid condition: " ++ condition)

/-- `andConditions.every(...)` with exception propagation: conjuncts are
evaluated left to right and a false conjunct short-circuits. -/
def evalAnds (obj : Record) : List String → Except String Bool
  | [] => .ok true
  | c :: rest =>
    match evalConjunct obj c with
    | .error m => .error m
    | .ok false => .ok false
    | .ok true => evalAnds obj rest

/-- `orConditions.some(...)`: alternatives evaluated left to right, a true
alternative short-circuits. -/
def evalOrs (obj : Record) : List String → Except String Bool
  | [] => .ok false
  | g :: rest =>
    match evalAnds obj (splitAND g) with
    | .error m => .error m
    | .ok true => .ok true
    | .ok false => evalOrs obj rest

/-- `processGroup(obj, group)`: OR-split first, AND-split second. -/
def processGroup (obj : Record) (group : String) : Except String Bool :=
  evalOrs obj (splitOR group)

/-! ### evaluateExpression: the parenthesis rewrite loop -/

def isParen (c : Char) : Bool := c = '(' || c = ')'

/-- Count of parenthesis characters: the termination measure of the
rewrite loop. -/
def parenCount (cs : List Char) : Nat := cs.countP isParen

/-- After an opening paren: the innermost-group body `([^()]+)` and the
closing paren, returning `(body, rest-after-close)`. -/
def takeInner (cs : List Char) : Option (List Char × List Char) :=
  let ir := spanP (fun c => !isParen c) cs
  if ir.1 = [] then none
  else match ir.2 with
    | ')' :: rest => some (ir.1, rest)
    | _ => none

/-- `/\(([^()]+)\)/.test(expression)`: is there an innermost group? -/
def hasGroup : List Char → Bool
  | [] => false
  | c :: cs => (c = '(' && (takeInner cs).isSome) || hasGroup cs

/-- One global-replace pass
`expression.replace(/\(([^()]+)\)/g, (_, g) => processGroup(obj, g) ? 'true' : 'false')`:
every innermost group, left to right and non-overlapping, is evaluated and
spliced as a boolean literal; a thrown evaluation error propagates.  Fuel
is the character count (each step consumes at least one character). -/
def replaceAllGroupsF (obj : Record) : Nat → List Char → Except String (List Char)
  | _, [] => .ok []
  | 0, cs => .ok cs
  | fuel + 1, c :: cs =>
    if c = '(' then
      match takeInner cs with
      | some (inner, rest) =>
        match processGroup obj (String.mk inner) with
        | .error m => .error m
        | .ok bv =>
          match replaceAllGroupsF obj fuel rest with
          | .error m => .error m
          | .ok tail => .ok ((if bv then "true".data else "false".data) ++ tail)
      | none =>
        match replaceAllGroupsF obj fuel cs with
        | .error m => .error m
        | .ok tail => .ok ('(' :: tail)
    else
      match replaceAllGroupsF obj fuel cs with
      | .error m => .error m
      | .ok tail => .ok (c :: tail)

/-- The `while (/\(([^()]+)\)/.test(expression))` loop, with an explicit
iteration bound.  Each successful pass strictly decreases `parenCount`
(see the termination theorem), so fuel `parenCount` reaches the loop's
exit condition. -/
def evalLoop (obj : Record) : Nat → List Char → Except String (List Char)
  | 0, cs => .ok cs
  | fuel + 1, cs =>
    if hasGroup cs then
      match replaceAllGroupsF obj cs.length cs with
      | .error m => .error m
      | .ok cs1 => evalLoop obj fuel cs1
    else .ok cs

/-- `expression.replace(/\s+/g, ' ')`: collapse whitespace runs to single
spaces.  The flag records whether the previous character was whitespace. -/
def collapseWsAux : Bool → List Char → List Char
  | _, [] => []
  | prevSpace, c :: cs =>
    if isSpaceChar c then
      if prevSpace then collapseWsAux true cs
      else ' ' :: collapseWsAux true cs
    else c :: collapseWsAux false cs

def normalizeWs (s : String) : String :=
  jsTrim (String.mk (collapseWsAux false s.data))

/-- `evaluateExpression(obj, expression)`: true on blank input, else
whitespace-normalize, resolve parenthesized groups to boolean literals,
then evaluate the flattened group. -/
def evaluateExpression (obj : Record) (expression : String) : Except String Bool :=
  if jsTrim expression = "" then .ok true
  else
    let e := normalizeWs expression
    match evalLoop obj (parenCount e.data) e.data with
    | .error m => .error m
    | .ok cs => processGroup obj (String.mk cs)

/-! ### The engine: searchObjects and filterObjects -/

/-- The engine state: the held record collection and the primary-key
field name. -/
structure QueryEngine where
  objects : List Record
  primaryKeyField : String

/-- Substring test (`String.prototype.includes`). -/
def litAt : List Char → List Char → Bool
  | [], _ => true
  | _ :: _, [] => false
  | n :: ns, h :: hs => n = h && litAt ns hs

def hasSub (needle : List Char) : List Char → Bool
  | [] => needle.isEmpty
  | h :: t => litAt needle (h :: t) || hasSub needle t

def strIncludes (hay needle : String) : Bool := hasSub needle.data hay.data

/-- `split(/\s+/).filter(Boolean)`: whitespace-separated words. -/
def wordsAux : List Char → List Char → List String
  | acc, [] => if acc = [] then [] else [String.mk acc.reverse]
  | acc, c :: cs =>
    if isSpaceChar c then
      if acc = [] then wordsAux [] cs
      else String.mk acc.reverse :: wordsAux [] cs
    else wordsAux (c :: acc) cs

/-- One field value as searched by `searchObjects`:
`value == null ? '' : String(value).toLowerCase()`. -/
def displayVal : JVal → String
  | .scalar .null => ""
  | .scalar .undef => ""
  | .scalar v => lowerStr (scalarStr v)
  | .arr xs => lowerStr (arrToString xs)

/-- `searchObjects(searchTerms)`: case-insensitive multi-term AND search
over the space-joined field values of each record; blank input returns
every primary key. -/
def searchObjects (eng : QueryEngine) (searchTerms : String) : List JVal :=
  let terms := wordsAux [] (lowerChars (jsTrimList searchTerms.data))
  if terms.isEmpty then eng.objects.map (pkValue eng.primaryKeyField)
  else
    eng.objects.filterMap (fun obj =>
      let searchableValues := joinWith " " (obj.map (fun p => displayVal p.2))
      if terms.all (fun term => strIncludes searchableValues term)
      then some (pkValue eng.primaryKeyField obj) else none)

/-- The structured-mode detector
`/[=!<>()]|(\bAND\b|\bOR\b|\bIN\b)/i.test(query)`. -/
def isOpChar (c : Char) : Bool :=
  c = '=' || c = '!' || c = '<' || c = '>' || c = '(' || c = ')'

/-- Case-insensitive match of a whole word at the head; the result is the
rest, accepted only when the word boundary after it holds. -/
def matchWordCI : List Char → List Char → Option (List Char)
  | [], cs => some cs
  | _ :: _, [] => none
  | t :: ts, c :: cs => if charLower t = charLower c then matchWordCI ts cs else none

/-- Scan for `\bW\b` (case-insensitive); the flag records whether the
previous character was a word character (the left boundary). -/
def containsWordAux (w : List Char) : Bool → List Char → Bool
  | _, [] => false
  | prevWord, c :: cs =>
    (!prevWord &&
      (match matchWordCI w (c :: cs) with
       | some [] => true
       | some (r :: _) => !isWordChar r
       | none => false))
    || containsWordAux w (isWordChar c) cs

def containsWordCI (w : String) (s : String) : Bool :=
  containsWordAux w.data false s.data

def hasOperators (query : String) : Bool :=
  query.data.any isOpChar
    || containsWordCI "AND" query || containsWordCI "OR" query
    || containsWordCI "IN" query

/-- The structured-mode scan of `filterObjects`: evaluate the expression
against each record in collection order; the first thrown evaluation error
aborts the call wrapped as `Query error`. -/
def filterLoop (query : String) (pk : String) : List Record → Except String (List JVal)
  | [] => .ok []
  | obj :: rest =>
    match evaluateExpression obj query with
    | .error m => .error ("Query error: " ++ m)
    | .ok true =>
      match filterLoop query pk rest with
      | .error m => .error m
      | .ok keys => .ok (pkValue pk obj :: keys)
    | .ok false => filterLoop query pk rest

/-- `filterObjects(query)`: blank query returns every primary key; a query
with no operator characters or keywords falls back to free-text search;
otherwise the structured scan. -/
def filterObjects (eng : QueryEngine) (query : String) : Except String (List JVal) :=
  if jsTrim query = "" then .ok (eng.objects.map (pkValue eng.primaryKeyField))
  else if !hasOperators query then .ok (searchObjects eng query)
  else filterLoop query eng.primaryKeyField eng.objects

/-! ### Fixtures used by the claim theorems -/

/-- The boolean a conjunct evaluates to when it does not throw. -/
def conjBool (obj : Record) (c : String) : Bool :=
  match evalConjunct obj c with
  | .ok b => b
  | .error _ => false

/-- The record collection of the `age = NULL` example:
`[{id:1,age:30},{id:2,age:null},{id:3}]`. -/
def nullAgeRecords : List Record :=
  [[("id", .scalar (.n 1)), ("age", .scalar (.n 30))],
   [("id", .scalar (.n 2)), ("age", .scalar .null)],
   [("id", .scalar (.n 3))]]

def nullAgeEngine : QueryEngine := ⟨nullAgeRecords, "id"⟩

/-- The record of the operator-precedence example:
`{name:"John",age:30,status:"active"}`. -/
def johnRecord : Record :=
  [("name", .scalar (.s "John")), ("age", .scalar (.n 30)),
   ("status", .scalar (.s "active"))]

/-- A one-record collection for the error-handling theorems. -/
def oneRecordEngine : QueryEngine := ⟨[[("id", .scalar (.n 1))]], "id"⟩

/-- A small two-record collection for the search-fallback witness. -/
def searchEngine : QueryEngine :=
  ⟨[[("id", .scalar (.n 1)), ("name", .scalar (.s "John Doe"))],
    [("id", .scalar (.n 2)), ("name", .scalar (.s "Jane Smith"))]], "id"⟩

/-! ### Helper lemmas: spans, groups and the parenthesis measure -/

theorem spanP_append (p : Char → Bool) (cs : List Char) :
    (spanP p cs).1 ++ (spanP p cs).2 = cs := by
  induction cs with
  | nil => rfl
  | cons c cs ih =>
    by_cases h : p c = true
    · simp [spanP, h, ih]
    · simp [spanP, h]

theorem spanP_pred (p : Char → Bool) (cs : List Char) :
    ∀ c ∈ (spanP p cs).1, p c = true := by
  induction cs with
  | nil => intro c h; simp [spanP] at h
  | cons c cs ih =>
    by_cases h : p c = true
    · simp only [spanP, h, if_true]
      intro d hd
      rcases List.mem_cons.mp hd with h1 | h2
      · exact h1 ▸ h
      · exact ih d h2
    · simp [spanP, h]

theorem takeInner_eq {cs inner rest : List Char}
    (h : takeInner cs = some (inner, rest)) :
    cs = inner ++ ')' :: rest ∧ (∀ c ∈ inner, isParen c = false) ∧ inner ≠ [] := by
  unfold takeInner at h
  by_cases h1 : (spanP (fun c => !isParen c) cs).1 = []
  · simp [h1] at h
  · simp only [h1, if_false] at h
    cases h2 : (spanP (fun c => !isParen c) cs).2 with
    | nil => rw [h2] at h; simp at h
    | cons d ds =>
      rw [h2] at h
      by_cases hd : d = ')'
      · subst hd
        simp at h
        obtain ⟨hi, hr⟩ := h
        refine ⟨?_, ?_, ?_⟩
        · rw [← hi, ← hr, ← h2]; exact (spanP_append _ cs).symm
        · intro c hc
          have := spanP_pred (fun c => !isParen c) cs c (hi ▸ hc)
          simpa using this
        · rw [← hi]; exact h1
      · split at h
        · simp_all
        · exact absurd h (by simp)

theorem takeInner_length {cs inner rest : List Char}
    (h : takeInner cs = some (inner, rest)) : rest.length < cs.length := by
  obtain ⟨he, -, hne⟩ := takeInner_eq h
  subst he
  simp only [List.length_append, List.length_cons]
  omega

theorem takeInner_count {cs inner rest : List Char}
    (h : takeInner cs = some (inner, rest)) :
    parenCount cs = parenCount rest + 1 := by
  obtain ⟨he, hpred, -⟩ := takeInner_eq h
  subst he
  unfold parenCount
  rw [List.countP_append, List.countP_cons]
  have hz : inner.countP isParen = 0 := by
    rw [List.countP_eq_zero]
    intro a ha
    simp [hpred a ha]
  simp [hz, isParen]

theorem hasGroup_nil : hasGroup [] = false := rfl

theorem hasGroup_cons (c : Char) (cs : List Char) :
    hasGroup (c :: cs) = (decide (c = '(') && (takeInner cs).isSome || hasGroup cs) := rfl

theorem parenCount_cons (c : Char) (cs : List Char) :
    parenCount (c :: cs) = parenCount cs + if isParen c then 1 else 0 :=
  List.countP_cons isParen c cs

theorem parenCount_zero_no_group {cs : List Char}
    (h : parenCount cs = 0) : hasGroup cs = false := by
  induction cs with
  | nil => rfl
  | cons c cs ih =>
    rw [parenCount_cons] at h
    have h1 : parenCount cs = 0 := by omega
    have h2 : isParen c = false := by
      by_cases hp : isParen c = true
      · simp [hp] at h
      · simpa using hp
    have hc : decide (c = '(') = false := by
      simp only [isParen, Bool.or_eq_false_iff] at h2
      exact h2.1
    rw [hasGroup_cons, hc, ih h1]
    rfl

theorem replaceAllGroupsF_nil (obj : Record) (fuel : Nat) :
    replaceAllGroupsF obj fuel [] = .ok [] := by
  cases fuel <;> rfl

theorem replaceAllGroupsF_succ_cons (obj : Record) (fuel : Nat) (c : Char)
    (cs : List Char) :
    replaceAllGroupsF obj (fuel + 1) (c :: cs) =
      if c = '(' then
        match takeInner cs with
        | some (inner, rest) =>
          match processGroup obj (String.mk inner) with
          | .error m => .error m
          | .ok bv =>
            match replaceAllGroupsF obj fuel rest with
            | .error m => .error m
            | .ok tail => .ok ((if bv then "true".data else "false".data) ++ tail)
        | none =>
          match replaceAllGroupsF obj fuel cs with
          | .error m => .error m
          | .ok tail => .ok ('(' :: tail)
      else
        match replaceAllGroupsF obj fuel cs with
        | .error m => .error m
        | .ok tail => .ok (c :: tail) := rfl

/-- One global-replace pass never increases the parenthesis count, and
strictly decreases it when the pass had a group to rewrite. -/
theorem replaceAllGroupsF_count (obj : Record) :
    ∀ fuel cs cs', cs.length ≤ fuel →
      replaceAllGroupsF obj fuel cs = .ok cs' →
      parenCount cs' ≤ parenCount cs ∧
        (hasGroup cs = true → parenCount cs' < parenCount cs) := by
  intro fuel
  induction fuel with
  | zero =>
    intro cs cs' hlen h
    have : cs = [] := List.eq_nil_of_length_eq_zero (Nat.le_zero.mp hlen)
    subst this
    rw [replaceAllGroupsF_nil] at h
    cases h
    exact ⟨le_rfl, by simp [hasGroup_nil]⟩
  | succ fuel ih =>
    intro cs cs' hlen h
    cases cs with
    | nil =>
      rw [replaceAllGroupsF_nil] at h
      cases h
      exact ⟨le_rfl, by simp [hasGroup_nil]⟩
    | cons c cs0 =>
      rw [replaceAllGroupsF_succ_cons] at h
      by_cases hc : c = '('
      · rw [if_pos hc] at h
        cases hti : takeInner cs0 with
        | some p =>
          obtain ⟨inner, rest⟩ := p
          rw [hti] at h
          simp only at h
          cases hpg : processGroup obj (String.mk inner) with
          | error m => rw [hpg] at h; cases h
          | ok bv =>
            rw [hpg] at h
            simp only at h
            cases hrec : replaceAllGroupsF obj fuel rest with
            | error m => rw [hrec] at h; cases h
            | ok tail =>
              rw [hrec] at h
              simp only at h
              cases h
              have hrl : rest.length ≤ fuel := by
                have := takeInner_length hti
                simp only [List.length_cons] at hlen
                omega
              have hih := ih rest tail hrl hrec
              have hcnt : parenCount (c :: cs0) = parenCount rest + 2 := by
                rw [parenCount_cons, takeInner_count hti, hc]
                simp [isParen]
              have hbool : parenCount (if bv then "true".data else "false".data) = 0 := by
                cases bv <;> decide
              have hcs' : parenCount ((if bv then "true".data else "false".data) ++ tail)
                  = parenCount tail := by
                unfold parenCount at hbool ⊢
                rw [List.countP_append]
                omega
              rw [hcs', hcnt]
              omega
        | none =>
          rw [hti] at h
          simp only at h
          cases hrec : replaceAllGroupsF obj fuel cs0 with
          | error m => rw [hrec] at h; cases h
          | ok tail =>
            rw [hrec] at h
            simp only at h
            cases h
            have hih := ih cs0 tail (by simpa using hlen) hrec
            have hg : hasGroup (c :: cs0) = hasGroup cs0 := by
              rw [hasGroup_cons, hti]
              simp
            rw [hg, parenCount_cons, parenCount_cons]
            subst hc
            constructor
            · omega
            · intro hgr
              have := hih.2 hgr
              omega
      · rw [if_neg hc] at h
        cases hrec : replaceAllGroupsF obj fuel cs0 with
        | error m => rw [hrec] at h; cases h
        | ok tail =>
          rw [hrec] at h
          simp only at h
          cases h
          have hih := ih cs0 tail (by simpa using hlen) hrec
          have hg : hasGroup (c :: cs0) = hasGroup cs0 := by
            rw [hasGroup_cons]
            simp [hc]
          rw [hg, parenCount_cons, parenCount_cons]
          constructor
          · omega
          · intro hgr
            have := hih.2 hgr
            omega

theorem evalLoop_zero (obj : Record) (cs : List Char) :
    evalLoop obj 0 cs = .ok cs := rfl

theorem evalLoop_succ (obj : Record) (fuel : Nat) (cs : List Char) :
    evalLoop obj (fuel + 1) cs =
      if hasGroup cs then
        match replaceAllGroupsF obj cs.length cs with
        | .error m => .error m
        | .ok cs1 => evalLoop obj fuel cs1
      else .ok cs := rfl

/-- With fuel at least the parenthesis count, a non-raising run of the
rewrite loop ends in a string with no remaining innermost group: the
loop's exit condition is reached. -/
theorem evalLoop_ok_no_group (obj : Record) :
    ∀ fuel cs, parenCount cs ≤ fuel →
      ∀ cs', evalLoop obj fuel cs = .ok cs' → hasGroup cs' = false := by
  intro fuel
  induction fuel with
  | zero =>
    intro cs hle cs' h
    rw [evalLoop_zero] at h
    cases h
    exact parenCount_zero_no_group (Nat.le_zero.mp hle)
  | succ fuel ih =>
    intro cs hle cs' h
    rw [evalLoop_succ] at h
    by_cases hg : hasGroup cs = true
    · rw [if_pos hg] at h
      cases hrep : replaceAllGroupsF obj cs.length cs with
      | error m => rw [hrep] at h; cases h
      | ok mid =>
        rw [hrep] at h
        simp only at h
        have hcnt := (replaceAllGroupsF_count obj cs.length cs mid le_rfl hrep).2 hg
        exact ih mid (by omega) cs' h
    · rw [if_neg hg] at h
      cases h
      simpa using hg

/-- Fuel-irrelevance of the rewrite loop: any two fuels at least the
parenthesis count give the same outcome, i.e. the loop has stabilized
within `parenCount` iterations. -/
theorem evalLoop_fuel_irrel (obj : Record) :
    ∀ f1 f2 cs, parenCount cs ≤ f1 → parenCount cs ≤ f2 →
      evalLoop obj f1 cs = evalLoop obj f2 cs := by
  intro f1
  induction f1 with
  | zero =>
    intro f2 cs h1 h2
    have hg : hasGroup cs = false := parenCount_zero_no_group (Nat.le_zero.mp h1)
    rw [evalLoop_zero]
    cases f2 with
    | zero => rw [evalLoop_zero]
    | succ f2 => rw [evalLoop_succ, if_neg (by simp [hg])]
  | succ f1 ih =>
    intro f2 cs h1 h2
    cases f2 with
    | zero =>
      have hg : hasGroup cs = false := parenCount_zero_no_group (Nat.le_zero.mp h2)
      rw [evalLoop_zero, evalLoop_succ, if_neg (by simp [hg])]
    | succ f2 =>
      rw [evalLoop_succ, evalLoop_succ]
      by_cases hg : hasGroup cs = true
      · rw [if_pos hg, if_pos hg]
        cases hrep : replaceAllGroupsF obj cs.length cs with
        | error m => rfl
        | ok mid =>
          simp only
          have hcnt := (replaceAllGroupsF_count obj cs.length cs mid le_rfl hrep).2 hg
          exact ih f2 mid (by omega) (by omega)
      · rw [if_neg hg, if_neg hg]

theorem evalAnds_nil (obj : Record) : evalAnds obj [] = .ok true := rfl

theorem evalAnds_cons (obj : Record) (c : String) (rest : List String) :
    evalAnds obj (c :: rest) =
      match evalConjunct obj c with
      | .error m => .error m
      | .ok false => .ok false
      | .ok true => evalAnds obj rest := rfl

theorem evalOrs_nil (obj : Record) : evalOrs obj [] = .ok false := rfl

theorem evalOrs_cons (obj : Record) (g : String) (rest : List String) :
    evalOrs obj (g :: rest) =
      match evalAnds obj (splitAND g) with
      | .error m => .error m
      | .ok true => .ok true
      | .ok false => evalOrs obj rest := rfl

/-- `every` over conjuncts: when no conjunct throws, the AND-chain is the
boolean conjunction of the conjunct values. -/
theorem evalAnds_all (obj : Record) :
    ∀ l : List String, (∀ c ∈ l, (evalConjunct obj c).isOk = true) →
      evalAnds obj l = .ok (l.all (conjBool obj)) := by
  intro l
  induction l with
  | nil => intro _; rfl
  | cons c rest ih =>
    intro h
    have hc : (evalConjunct obj c).isOk = true := h c (List.mem_cons_self c rest)
    cases he : evalConjunct obj c with
    | error m => rw [he] at hc; cases hc
    | ok b =>
      have hcb : conjBool obj c = b := by unfold conjBool; rw [he]
      rw [evalAnds_cons, he]
      cases b with
      | false => simp [List.all_cons, hcb]
      | true =>
        have := ih (fun d hd => h d (List.mem_cons_of_mem c hd))
        simp [List.all_cons, hcb, this]

/-- `some` over alternatives: when no conjunct of any alternative throws,
the OR-chain is the boolean disjunction of the AND-chains. -/
theorem evalOrs_any (obj : Record) :
    ∀ l : List String,
      (∀ g ∈ l, ∀ c ∈ splitAND g, (evalConjunct obj c).isOk = true) →
      evalOrs obj l = .ok (l.any fun g => (splitAND g).all (conjBool obj)) := by
  intro l
  induction l with
  | nil => intro _; rfl
  | cons g rest ih =>
    intro h
    have hg := evalAnds_all obj (splitAND g) (h g (List.mem_cons_self g rest))
    rw [evalOrs_cons, hg]
    cases hb : (splitAND g).all (conjBool obj) with
    | true => simp [List.any_cons, hb]
    | false =>
      have := ih (fun d hd => h d (List.mem_cons_of_mem g hd))
      simp [List.any_cons, hb, this]

/-- Whatever text an `IN` condition parses from, every member of the
parsed value list is the null literal or a string: the token map never
coerces numbers or booleans. -/
theorem parseCondition_in_values {cond f : String} {vs : List Scalar}
    (h : parseCondition cond = some ⟨f, "IN", .list vs⟩) :
    ∀ v ∈ vs, v = Scalar.null ∨ ∃ sv, v = Scalar.s sv := by
  unfold parseCondition at h
  cases hin : findINMatch cond.data with
  | some p =>
    obtain ⟨field, values⟩ := p
    rw [hin] at h
    simp only [Option.some.injEq, Cond.mk.injEq] at h
    obtain ⟨-, -, hv⟩ := h
    have hvs : vs = (splitOnComma [] values.data).map inListElem := by
      cases hv'' : (CondValue.list ((splitOnComma [] values.data).map inListElem)) with
      | _ => injection hv.symm
    subst hvs
    intro v hvmem
    obtain ⟨t, -, ht⟩ := List.mem_map.mp hvmem
    unfold inListElem at ht
    by_cases hn :
        String.mk ((jsTrimList t.data).filter (fun c => !(c = '"'))) = "NULL"
    · left; rw [← ht]; simp [hn]
    · right
      refine ⟨String.mk ((jsTrimList t.data).filter (fun c => !(c = '"'))), ?_⟩
      rw [← ht]; simp [hn]
  | none =>
    rw [hin] at h
    cases hcmp : findCmpMatch cond.data with
    | none => rw [hcmp] at h; cases h
    | some p =>
      obtain ⟨fld, op, value⟩ := p
      rw [hcmp] at h
      simp at h

/-! ### Claim theorems -/

/-- Claim C1 (counterexample): the claim predicts `true` for an
array-valued field with an element in the `IN` list, whatever the list;
but for the record `{tags:["dev","lead"]}` and the condition
`tags IN [NULL, "dev"]` the code returns `false`, even though the array
element `"dev"` is a member of the value list: the contains-null branch
runs before the array branch and an array is never nullish nor a strict
member of a scalar list. -/
theorem in_array_null_list_counterexample :
    applyCondition [("tags", JVal.arr [.s "dev", .s "lead"])]
        ⟨"tags", "IN", .list [Scalar.null, .s "dev"]⟩ = false ∧
    ([Scalar.s "dev", Scalar.s "lead"].any
      (fun i => [Scalar.null, Scalar.s "dev"].contains i)) = true :=
  ⟨rfl, rfl⟩

/-- Claim C1 (amended): for a record whose value at the condition's field
is an array, an `IN` condition whose value list does not contain null is
true iff some array element is a member of the value list; when the value
list contains null the result is false regardless of the array's
elements. -/
theorem in_array_semantics (obj : Record) (f : String) (vs : List Scalar)
    (xs : List Scalar) (h : objGet obj f = .arr xs) :
    applyCondition obj ⟨f, "IN", .list vs⟩ =
      if vs.contains Scalar.null then false
      else xs.any fun i => vs.contains i := by
  show evalIN (objGet obj f) (.list vs) = _
  rw [h]
  by_cases hc : vs.contains Scalar.null = true <;>
    simp [evalIN, hc, jvalNullish, inIncludes]

/-- Claim C1 (witness): the amended theorem at a concrete record and
condition. -/
theorem in_array_semantics_witness :
    objGet [("tags", JVal.arr [Scalar.s "dev"])] "tags" = .arr [Scalar.s "dev"] ∧
    applyCondition [("tags", JVal.arr [Scalar.s "dev"])]
        ⟨"tags", "IN", .list [Scalar.s "dev", Scalar.s "x"]⟩ =
      (if [Scalar.s "dev", Scalar.s "x"].contains Scalar.null then false
       else [Scalar.s "dev"].any fun i => [Scalar.s "dev", Scalar.s "x"].contains i) :=
  ⟨rfl, in_array_semantics _ "tags" _ _ rfl⟩

/-- Claim C2 (counterexample): the universally quantified claim fails in
two ways.  With an empty collection, `filterObjects "field AND"` returns
an empty result list and never raises (the structured scan never
evaluates the expression).  And a conjunct that is neither a boolean
literal nor parseable (here `%%`) raises no error when short-circuited by
an earlier false conjunct of its alternative: `false AND %%` yields an
empty result, not an error, even though the query is structured-mode and
`%%` is an unparseable conjunct. -/
theorem structured_error_counterexample :
    filterObjects ⟨[], "id"⟩ "field AND" = .ok [] ∧
    filterObjects oneRecordEngine "false AND %%" = .ok [] ∧
    hasOperators "false AND %%" = true ∧
    splitAND "false AND %%" = ["false", "%%"] ∧
    parseCondition "%%" = none ∧
    lowerStr (jsTrim "%%") ≠ "true" ∧ lowerStr (jsTrim "%%") ≠ "false" :=
  ⟨rfl, rfl, rfl, rfl, rfl, by decide, by decide⟩

/-- Claim C2 (amended): for every engine holding a non-empty collection,
`filterObjects "field AND"` raises the wrapped error
`Query error: Invalid condition: field AND` and returns no partial
results; in general a structured query raises only when evaluation of
some record actually reaches the unparseable conjunct (conjuncts skipped
by OR/AND short-circuiting, or an empty collection, produce no error). -/
theorem field_and_raises (eng : QueryEngine) (h : eng.objects ≠ []) :
    filterObjects eng "field AND" =
      .error "Query error: Invalid condition: field AND" := by
  obtain ⟨objs, pk⟩ := eng
  cases objs with
  | nil => exact absurd rfl h
  | cons o rest =>
    have he : evaluateExpression o "field AND" =
        .error "Invalid condition: field AND" := rfl
    show filterLoop "field AND" pk (o :: rest) = _
    unfold filterLoop
    rw [he]
    rfl

/-- Claim C2 (witness): the amended theorem at a concrete one-record
engine. -/
theorem field_and_raises_witness :
    oneRecordEngine.objects ≠ [] ∧
    filterObjects oneRecordEngine "field AND" =
      .error "Query error: Invalid condition: field AND" :=
  ⟨by simp [oneRecordEngine], field_and_raises oneRecordEngine (by simp [oneRecordEngine])⟩

/-- Claim C3: the parenthesis rewrite loop of `evaluateExpression`
terminates within `parenCount` iterations for every record and every
expression, balanced or not: running the loop with any fuel at least the
parenthesis-character count gives the same outcome as running it with
exactly that count (each successful pass strictly decreases the count),
and whenever it returns a rewritten string instead of raising, that
string matches no further innermost group — the loop's exit test fails,
so `evaluateExpression` either raises or returns the boolean of the
flattened expression. -/
theorem rewrite_loop_terminates (obj : Record) (cs : List Char) (fuel : Nat)
    (h : parenCount cs ≤ fuel) :
    evalLoop obj fuel cs = evalLoop obj (parenCount cs) cs ∧
    ∀ cs', evalLoop obj fuel cs = .ok cs' → hasGroup cs' = false :=
  ⟨evalLoop_fuel_irrel obj fuel (parenCount cs) cs h le_rfl,
   evalLoop_ok_no_group obj fuel cs h⟩

/-- Claim C3 (witness): the termination theorem at a concrete
parenthesized expression. -/
theorem rewrite_loop_terminates_witness :
    parenCount "(x = 1) OR (y = 2)".data ≤ 6 ∧
    evalLoop ([] : Record) 6 "(x = 1) OR (y = 2)".data =
      evalLoop [] (parenCount "(x = 1) OR (y = 2)".data) "(x = 1) OR (y = 2)".data ∧
    hasGroup "false OR false".data = false := by
  have h := rewrite_loop_terminates ([] : Record) "(x = 1) OR (y = 2)".data 6 (by decide)
  exact ⟨by decide, h.1, h.2 "false OR false".data (by rfl)⟩

/-- Claim C4: `=` with the null condition value returns true exactly when
the record's value at the field is nullish (null, undefined, or the empty
string), a missing field reading as null; and over the records
`[{id:1,age:30},{id:2,age:null},{id:3}]` the query `age = NULL` selects
exactly the ids 2 and 3. -/
theorem eq_null_matches_nullish :
    (∀ (obj : Record) (f : String),
      applyCondition obj ⟨f, "=", .scalar .null⟩ = jvalNullish (objGet obj f)) ∧
    filterObjects nullAgeEngine "age = NULL" =
      .ok [.scalar (.n 2), .scalar (.n 3)] :=
  ⟨fun _ _ => rfl, rfl⟩

/-- Claim C5: a non-blank query containing none of the operator
characters `= ! < > ( )` and none of the case-insensitive whole words
`AND`, `OR`, `IN` is classified as search mode, and `filterObjects`
returns exactly the result of `searchObjects` on the same string. -/
theorem search_fallback (eng : QueryEngine) (q : String)
    (h1 : jsTrim q ≠ "")
    (h2 : ∀ c ∈ q.data, isOpChar c = false)
    (h3 : containsWordCI "AND" q = false)
    (h4 : containsWordCI "OR" q = false)
    (h5 : containsWordCI "IN" q = false) :
    filterObjects eng q = .ok (searchObjects eng q) := by
  have hany : q.data.any isOpChar = false :=
    List.any_eq_false.mpr (by intro c hc; simp [h2 c hc])
  have hops : hasOperators q = false := by
    unfold hasOperators
    rw [hany, h3, h4, h5]
    rfl
  unfold filterObjects
  rw [if_neg h1, hops]
  rfl

/-- Claim C5 (witness): the search-fallback theorem at a concrete engine
and plain-text query. -/
theorem search_fallback_witness :
    filterObjects searchEngine "john" = .ok (searchObjects searchEngine "john") :=
  search_fallback searchEngine "john" (by decide) (by decide) (by decide)
    (by decide) (by decide)

/-- Claim C6: a blank (empty or all-whitespace) query returns the
primary-key value of every record, in collection order, and never
raises. -/
theorem blank_query_returns_all (eng : QueryEngine) (q : String)
    (h : jsTrim q = "") :
    filterObjects eng q = .ok (eng.objects.map (pkValue eng.primaryKeyField)) := by
  unfold filterObjects
  rw [if_pos h]

/-- Claim C6 (witness): the blank-query theorem at a concrete engine and
whitespace query. -/
theorem blank_query_returns_all_witness :
    filterObjects searchEngine "  " = .ok [.scalar (.n 1), .scalar (.n 2)] :=
  (blank_query_returns_all searchEngine "  " rfl).trans rfl

/-- Claim C7: `processGroup` is OR-first, AND-second: when no reached
conjunct throws, the group's value is the disjunction over the
`\s+OR\s+`-split alternatives of the conjunction over each alternative's
`\s+AND\s+`-split conjuncts; hence `a OR b AND c` groups as
`a OR (b AND c)`. -/
theorem or_of_ands (obj : Record) (group : String)
    (h : ∀ g ∈ splitOR group, ∀ c ∈ splitAND g, (evalConjunct obj c).isOk = true) :
    processGroup obj group =
      .ok ((splitOR group).any fun g => (splitAND g).all (conjBool obj)) :=
  evalOrs_any obj (splitOR group) h

/-- Claim C7 (witness): on `{name:"John",age:30,status:"active"}` the
group `name = "Jane" OR age = 30 AND status = "active"` evaluates true,
i.e. as `name = "Jane" OR (age = 30 AND status = "active")`. -/
theorem or_of_ands_witness :
    processGroup johnRecord
      "name = \"Jane\" OR age = 30 AND status = \"active\"" = .ok true := by
  have h := or_of_ands johnRecord
    "name = \"Jane\" OR age = 30 AND status = \"active\"" (by decide)
  rw [h]
  rfl

/-- Claim C8: for every record, field and scalar condition value, `!=`
returns exactly the boolean negation of `=` on the same inputs, across
the null-value, nullish-field, array-field and scalar branches. -/
theorem neq_negates_eq (obj : Record) (f : String) (v : Scalar) :
    applyCondition obj ⟨f, "!=", .scalar v⟩ =
      !applyCondition obj ⟨f, "=", .scalar v⟩ := by
  show evalNeq (objGet obj f) (.scalar v) = !evalEq (objGet obj f) (.scalar v)
  generalize objGet obj f = ov
  unfold evalEq evalNeq
  by_cases hn : condIsNull (.scalar v) = true
  · rw [if_pos hn, if_pos hn]
  · rw [if_neg hn, if_neg hn]
    by_cases hj : jvalNullish ov = true
    · rw [if_pos hj, if_pos hj]
      rfl
    · rw [if_neg hj, if_neg hj]
      cases ov with
      | arr xs => rfl
      | scalar a => rfl

/-- Claim C9: the value list an `IN` condition parses to contains only
null and string members (no numeric or boolean coercion of list tokens),
and `IN` membership is same-value: a record whose field holds a number
satisfies no such list, in particular no non-null member. -/
theorem in_list_strict (cond f : String) (vs : List Scalar)
    (h : parseCondition cond = some ⟨f, "IN", .list vs⟩) :
    (∀ v ∈ vs, v = Scalar.null ∨ ∃ sv, v = Scalar.s sv) ∧
    (∀ (obj : Record) (q : Rat), objGet obj f = .scalar (.n q) →
      applyCondition obj ⟨f, "IN", .list vs⟩ = false) := by
  have hvals := parseCondition_in_values h
  refine ⟨hvals, ?_⟩
  intro obj q hq
  have hmem : Scalar.n q ∉ vs := by
    intro hm
    rcases hvals _ hm with h1 | ⟨sv, h2⟩ <;> simp_all
  have hcontains : vs.contains (Scalar.n q) = false := by
    rw [← Bool.not_eq_true]
    intro hc
    exact hmem (List.elem_iff.mp hc)
  show evalIN (objGet obj f) (.list vs) = false
  rw [hq]
  by_cases hn : vs.contains Scalar.null = true <;>
    simp [evalIN, hn, jvalNullish, scalarNullish, inIncludes, hcontains] <;>
    exact hmem

/-- Claim C9 (witness): the strictness theorem at the condition text
`age IN [1, NULL]` and a record whose `age` is the number 1: the list
member is the string `"1"`, so the record does not match. -/
theorem in_list_strict_witness :
    (∀ v ∈ [Scalar.s "1", Scalar.null], v = Scalar.null ∨ ∃ sv, v = Scalar.s sv) ∧
    applyCondition [("age", JVal.scalar (.n 1))]
      ⟨"age", "IN", .list [Scalar.s "1", Scalar.null]⟩ = false := by
  have h := in_list_strict "age IN [1, NULL]" "age" [Scalar.s "1", Scalar.null] rfl
  exact ⟨h.1, h.2 [("age", JVal.scalar (.n 1))] 1 rfl⟩

/-- Claim C10: a string-valued field (empty or not) never satisfies an
equality against the empty quoted string literal: the empty string is
nullish, so the nullish guard returns false before the equality test; the
empty-string field is instead matched by `field = NULL`. -/
theorem empty_string_literal_never_matches (obj : Record) (f : String)
    (sv : String) (h : objGet obj f = .scalar (.s sv)) :
    applyCondition obj ⟨f, "=", .scalar (.s "")⟩ = false ∧
    (sv = "" → applyCondition obj ⟨f, "=", .scalar .null⟩ = true) := by
  constructor
  · show evalEq (objGet obj f) (.scalar (.s "")) = false
    rw [h]
    by_cases hs : sv = ""
    · subst hs
      rfl
    · simp [evalEq, condIsNull, jvalNullish, scalarNullish, hs,
        looseEqCV, looseEq]
  · intro hs
    subst hs
    show evalEq (objGet obj f) (.scalar .null) = true
    rw [h]
    rfl

/-- Claim C10 (witness): the theorem at a record whose field is the empty
string, together with the parse of the empty quoted literal. -/
theorem empty_string_literal_witness :
    parseCondition "field = \"\"" = some ⟨"field", "=", .scalar (.s "")⟩ ∧
    applyCondition [("f", JVal.scalar (.s ""))] ⟨"f", "=", .scalar (.s "")⟩ = false ∧
    applyCondition [("f", JVal.scalar (.s ""))] ⟨"f", "=", .scalar .null⟩ = true := by
  have h := empty_string_literal_never_matches
    [("f", JVal.scalar (.s ""))] "f" "" rfl
  exact ⟨rfl, h.1, h.2 rfl⟩
